import Mathlib

/-!
Shallow embedding of `src/scripts/perf_diff_to_html_table.py`, a Python 2
script that loads one or more "key value" performance-counter dump files
into in-memory mappings and renders an HTML comparison table against the
first (baseline) file.

Modelling conventions:
* Python dicts preserving insertion order are modelled as association
  lists (`List (String × α)`) with overwrite-in-place insertion.
* A file is modelled as its list of text lines (without the trailing
  newline, which the script immediately strips with `rstrip`).
* Python floats are modelled as rationals; `float(s)` is modelled on
  plain decimal numerals (optional sign, digits, optional fractional
  part), which covers every value the input format of the script produces;
  any other string raises a ValueError, as in Python.
* Exceptions (KeyError, IndexError, ValueError, IOError) are modelled
  with `Except Err`.
* The emitted HTML is modelled structurally: one constructor per emitted
  cell, so that counting cells and inspecting CSS classes is direct.
-/

/-- Exceptions the script can raise: KeyError (missing dict key),
IndexError (list index out of range), ValueError (bad float literal),
IOError (unreadable file). -/
inductive Err where
  | keyError (k : String)
  | indexError
  | valueError (s : String)
  | ioError (f : String)
deriving DecidableEq

instance {ε α : Type} [DecidableEq ε] [DecidableEq α] :
    DecidableEq (Except ε α) := fun a b =>
  match a, b with
  | .error x, .error y =>
      if h : x = y then isTrue (by rw [h])
      else isFalse (fun hc => h (by injection hc))
  | .ok x, .ok y =>
      if h : x = y then isTrue (by rw [h])
      else isFalse (fun hc => h (by injection hc))
  | .error _, .ok _ => isFalse (fun hc => Except.noConfusion hc)
  | .ok _, .error _ => isFalse (fun hc => Except.noConfusion hc)

/-- Lookup in an association list modelling a Python dict. -/
def dlookup {α : Type} (m : List (String × α)) (k : String) : Option α :=
  match m with
  | [] => none
  | (k', v) :: rest => if k' = k then some v else dlookup rest k

/-- Insertion into an association list modelling a Python dict:
overwrites the value in place when the key exists, otherwise appends,
preserving insertion order as Python dicts do. -/
def dinsert {α : Type} (m : List (String × α)) (k : String) (v : α) :
    List (String × α) :=
  match m with
  | [] => [(k, v)]
  | (k', v') :: rest =>
      if k' = k then (k, v) :: rest else (k', v') :: dinsert rest k v

/-- Models Python `str.rstrip()`: removes trailing whitespace characters. -/
def rstripChars (l : List Char) : List Char :=
  (l.reverse.dropWhile Char.isWhitespace).reverse

/-- Models Python `str.split(' ')` on a list of characters: splits at every
single space, keeping empty fields between consecutive spaces. -/
def splitSp : List Char → List (List Char)
  | [] => [[]]
  | c :: cs =>
      if c = ' ' then [] :: splitSp cs
      else
        match splitSp cs with
        | [] => [[c]]
        | t :: ts => (c :: t) :: ts

/-- Models the per-line parsing in the loop body of `read_filename`:
returns `none` if the line is skipped (empty after `rstrip`, or starting
with the comment marker), otherwise the `(eventname, count)` pair, with
the sentinel "n/a" filling a missing field. -/
def parsedLine (x : String) : Option (String × String) :=
  match rstripChars x.data with
  | [] => none
  | c :: cs =>
      if c = '#' then none
      else
        let y := splitSp (c :: cs)
        some
          ((match y.head? with
            | some t => String.mk t
            | none => "n/a"),
           (match y[1]? with
            | some t => String.mk t
            | none => "n/a"))

/-- The global mutable state of the script: `loadindex`,
`loaded_columnnames`, `loaded_filenames`, `known_eventnames` (a dict used
only for membership, modelled by its key list), `eventnames` (the ordered
event universe) and `eventdata` (filename to event-to-raw-value map). -/
structure LoadState where
  loadindex : Nat
  loaded_columnnames : List String
  loaded_filenames : List String
  known_eventnames : List String
  eventnames : List String
  eventdata : List (String × List (String × String))
deriving DecidableEq

/-- The initial global state of the script. -/
def initState : LoadState :=
  { loadindex := 0, loaded_columnnames := [], loaded_filenames := [],
    known_eventnames := [], eventnames := [], eventdata := [] }

/-- One iteration of the line loop of `read_filename`: skip blank and
comment lines; record a first-seen event name in `known_eventnames` and
`eventnames`; create the dict entry of the file if missing and set
`eventdata[filename][eventname] = count`. -/
def processLine (filename : String) (st : LoadState) (x : String) :
    LoadState :=
  match parsedLine x with
  | none => st
  | some (eventname, count) =>
      let st :=
        if eventname ∈ st.known_eventnames then st
        else
          { st with
            known_eventnames := st.known_eventnames ++ [eventname],
            eventnames := st.eventnames ++ [eventname] }
      let cur := (dlookup st.eventdata filename).getD []
      { st with
        eventdata := dinsert st.eventdata filename (dinsert cur eventname count) }

/-- Models `read_filename(filename)`: folds the line loop over the lines
of the file, then reads the __NAME__ entry of `eventdata[filename]` with
bare subscripts (raising KeyError if
either lookup fails, exactly as the Python subscripts do) and appends the
column name, the filename, and bumps `loadindex`. -/
def read_filename (st : LoadState) (filename : String)
    (lines : List String) : Except Err LoadState :=
  let st' := lines.foldl (processLine filename) st
  match dlookup st'.eventdata filename with
  | none => .error (.keyError filename)
  | some m =>
      match dlookup m "__NAME__" with
      | none => .error (.keyError "__NAME__")
      | some nm =>
          .ok { st' with
                loaded_columnnames := st'.loaded_columnnames ++ [nm],
                loaded_filenames := st'.loaded_filenames ++ [filename],
                loadindex := st'.loadindex + 1 }

/-- Loads a list of (filename, file lines) pairs in order, starting from a
given state, stopping at the first error — the main loop of the script. -/
def loadAllFrom : LoadState → List (String × List String) →
    Except Err LoadState
  | st, [] => .ok st
  | st, fl :: fls =>
      match read_filename st fl.1 fl.2 with
      | .error e => .error e
      | .ok st' => loadAllFrom st' fls

/-- Loads a list of (filename, file lines) pairs from the initial state. -/
def loadAll (files : List (String × List String)) : Except Err LoadState :=
  loadAllFrom initState files

/-- Numeric value of a list of decimal digit characters. -/
def digitsVal (l : List Char) : Nat :=
  l.foldl (fun a c => 10 * a + (c.toNat - 48)) 0

/-- Parses an unsigned decimal numeral (digits, optional fractional part)
into a rational; `none` when the characters are not such a numeral. -/
def parseUnsigned (l : List Char) : Option ℚ :=
  let intPart := l.takeWhile Char.isDigit
  let rest := l.dropWhile Char.isDigit
  match rest with
  | [] => if intPart = [] then none else some (digitsVal intPart)
  | '.' :: frac =>
      let fracDigits := frac.takeWhile Char.isDigit
      let rest2 := frac.dropWhile Char.isDigit
      if rest2 ≠ [] then none
      else if intPart = [] ∧ fracDigits = [] then none
      else
        some ((digitsVal intPart : ℚ) +
          (digitsVal fracDigits : ℚ) / (10 ^ fracDigits.length : ℚ))
  | _ => none

/-- Models Python `float(s)` on the decimal numerals the input
format of this script produces (optional sign, digits, optional
fractional part); any other string raises ValueError. -/
def pyFloat (s : String) : Except Err ℚ :=
  match s.data with
  | '-' :: rest =>
      match parseUnsigned rest with
      | some q => .ok (-q)
      | none => .error (.valueError s)
  | '+' :: rest =>
      match parseUnsigned rest with
      | some q => .ok q
      | none => .error (.valueError s)
  | l =>
      match parseUnsigned l with
      | some q => .ok q
      | none => .error (.valueError s)

/-- Lexicographic code-point comparison of character lists, as Python
string comparison performs. -/
def charsLe : List Char → List Char → Bool
  | [], _ => true
  | _ :: _, [] => false
  | a :: as, b :: bs => if a = b then charsLe as bs else decide (a < b)

/-- Lexicographic code-point comparison of strings. -/
def strLe (a b : String) : Bool :=
  charsLe a.data b.data

/-- Insert a string into a list sorted by `strLe` (stable). -/
def insertSorted (e : String) : List String → List String
  | [] => [e]
  | x :: xs => if strLe e x then e :: x :: xs else x :: insertSorted e xs

/-- Models Python `sorted` on a list of strings: a stable sort by
lexicographic code-point order. -/
def sortNames : List String → List String
  | [] => []
  | x :: xs => insertSorted x (sortNames xs)

/-- Header cells of the rendered table: the empty corner cell, a plain
column-label cell, a column-label cell carrying a patch hyperlink, and
the percentage header cell. Each constructor is one emitted th cell. -/
inductive HCell where
  | corner
  | th (label : String)
  | thPatch (label patch : String)
  | thPct
deriving DecidableEq

/-- The pair of body cells a comparison column contributes to an event
row. The script prints two td cells, both carrying the same class
attribute `cls`; `val` is the number formatted into the value cell and
`pct` the number formatted into the percentage cell. -/
structure DeltaCells where
  cls : String
  val : ℚ
  pct : ℚ
deriving DecidableEq

/-- One rendered event row: the event-name label cell, the baseline value
cell (printed with no class attribute), and one `DeltaCells` pair per
comparison column. -/
structure BodyRow where
  event : String
  originVal : ℚ
  deltas : List DeltaCells
deriving DecidableEq

/-- The rendered HTML table: its header row cells and its event rows. -/
structure Table where
  header : List HCell
  rows : List BodyRow
deriving DecidableEq

/-- Models the Python subscript `eventdata[f]`: KeyError when absent. -/
def getEventMap (st : LoadState) (f : String) :
    Except Err (List (String × String)) :=
  match dlookup st.eventdata f with
  | some m => .ok m
  | none => .error (.keyError f)

/-- Models a Python subscript on an event map: KeyError when absent. -/
def getKey (m : List (String × String)) (k : String) : Except Err String :=
  match dlookup m k with
  | some v => .ok v
  | none => .error (.keyError k)

/-- The `DeltaCells` the script prints for comparison value `v` against
baseline value `v0`: class perfstatincr on strict increase, perfstatdecr
otherwise; percentage `(v / v0) * 100` guarded to `0` when `v0 = 0`. -/
def mkDelta (v0 v : ℚ) : DeltaCells :=
  { cls := if v0 < v then "perfstatincr" else "perfstatdecr",
    val := v,
    pct := if v0 ≠ 0 then v / v0 * 100 else 0 }

/-- The comparison-column cells for event `e` of column file `f`:
`float(eventdata[f][e])` compared against the baseline value `v0`. -/
def deltaCellsFor (st : LoadState) (v0 : ℚ) (e f : String) :
    Except Err DeltaCells :=
  match getEventMap st f with
  | .error er => .error er
  | .ok m =>
      match getKey m e with
      | .error er => .error er
      | .ok s =>
          match pyFloat s with
          | .error er => .error er
          | .ok v => .ok (mkDelta v0 v)

/-- The inner loop over `loaded_filenames[1:]` of an event row. -/
def rowDeltas (st : LoadState) (v0 : ℚ) (e : String) :
    List String → Except Err (List DeltaCells)
  | [] => .ok []
  | f :: fs =>
      match deltaCellsFor st v0 e f with
      | .error er => .error er
      | .ok d =>
          match rowDeltas st v0 e fs with
          | .error er => .error er
          | .ok ds => .ok (d :: ds)

/-- One event row: `float(eventdata[loaded_filenames[0]][e])` as the
baseline value (IndexError when no file was loaded), then the comparison
columns. -/
def renderRow (st : LoadState) (e : String) : Except Err BodyRow :=
  match st.loaded_filenames with
  | [] => .error .indexError
  | f0 :: fs =>
      match getEventMap st f0 with
      | .error er => .error er
      | .ok m0 =>
          match getKey m0 e with
          | .error er => .error er
          | .ok s0 =>
              match pyFloat s0 with
              | .error er => .error er
              | .ok v0 =>
                  match rowDeltas st v0 e fs with
                  | .error er => .error er
                  | .ok ds => .ok { event := e, originVal := v0, deltas := ds }

/-- The reserved pseudo-event names skipped by the row loop. -/
def isReservedName (e : String) : Bool :=
  e == "__NAME__" || e == "__PATCH__"

/-- The row loop of `print_html`: one row per sorted event name, skipping
the reserved names. -/
def renderRows (st : LoadState) : List String → Except Err (List BodyRow)
  | [] => .ok []
  | e :: es =>
      if isReservedName e then renderRows st es
      else
        match renderRow st e with
        | .error er => .error er
        | .ok r =>
            match renderRows st es with
            | .error er => .error er
            | .ok rs => .ok (r :: rs)

/-- The delta-column header loop: for each label in
`loaded_columnnames[1:]` (with running index `i` into
`loaded_filenames`), reads the __PATCH__ entry of the column with a bare
subscript, as in `eventdata[loaded_filenames[i]]`
(KeyError when the key is absent); a non-empty (truthy) value produces a
label cell with a patch hyperlink, an empty value a plain label cell —
each followed by the percentage header cell. -/
def headerDeltaCells (st : LoadState) :
    List String → Nat → Except Err (List HCell)
  | [], _ => .ok []
  | c :: cs, i =>
      match st.loaded_filenames[i]? with
      | none => .error .indexError
      | some f =>
          match getEventMap st f with
          | .error er => .error er
          | .ok m =>
              match getKey m "__PATCH__" with
              | .error er => .error er
              | .ok p =>
                  match headerDeltaCells st cs (i + 1) with
                  | .error er => .error er
                  | .ok rest =>
                      .ok ((if p ≠ "" then
                              [HCell.thPatch c p, HCell.thPct]
                            else [HCell.th c, HCell.thPct]) ++ rest)

/-- Models `print_html()`: the header row (corner cell, baseline label
from `loaded_columnnames[0]` — IndexError when empty — and the delta
column headers), then one row per sorted non-reserved event name. -/
def print_html (st : LoadState) : Except Err Table :=
  match st.loaded_columnnames with
  | [] => .error .indexError
  | c0 :: cs =>
      match headerDeltaCells st cs 1 with
      | .error er => .error er
      | .ok hs =>
          match renderRows st (sortNames st.eventnames) with
          | .error er => .error er
          | .ok rows =>
              .ok { header := HCell.corner :: HCell.th c0 :: hs, rows := rows }

/-- Outcome of one invocation of the script: the usage path (printing the
given lines and exiting with status 1), an uncaught exception, or a
successfully printed table. -/
inductive RunResult where
  | usage (lines : List String)
  | exn (e : Err)
  | html (t : Table)
deriving DecidableEq

/-- First usage line. Python 2 print with comma-separated items emits one
space between items, so the program name is surrounded by two spaces: one
ending the literal, one added by the separator (and likewise before the
argument template). -/
def usageLine1 (prog : String) : String :=
  "Usage:  " ++ prog ++ "  <name> <filename> [<name> <filename>...]"

/-- Second usage line of the script. -/
def usageLine2 : String :=
  "Where these files have been generated have been generated with \x27perf stat -x \\; ... \x27"

/-- The main loop over `filenames = sys.argv[1::]`: reads each file from
the (modelled) filesystem `fsys` and loads it; a missing file raises an
IOError and any load error propagates. -/
def runLoads (st : LoadState) (fsys : String → Option (List String)) :
    List String → Except Err LoadState
  | [] => .ok st
  | n :: ns =>
      match fsys n with
      | none => .error (.ioError n)
      | some lines =>
          match read_filename st n lines with
          | .error e => .error e
          | .ok st' => runLoads st' fsys ns

/-- Models the top-level script body: with fewer than 2 argv entries it
prints the usage lines and exits with status 1 before touching any file;
otherwise it loads `sys.argv[1::]` in order and renders the table, any
exception escaping uncaught. -/
def run (argv : List String) (fsys : String → Option (List String)) :
    RunResult :=
  if argv.length < 2 then .usage [usageLine1 (argv.headD ""), usageLine2]
  else
    match runLoads initState fsys (argv.drop 1) with
    | .error e => .exn e
    | .ok st =>
        match print_html st with
        | .error e => .exn e
        | .ok t => .html t

/-- Exit status of a run: 1 on the usage path, 1 on an uncaught exception
(Python exits nonzero on an uncaught exception), 0 on success. -/
def exitCodeOf : RunResult → Nat
  | .usage _ => 1
  | .exn _ => 1
  | .html _ => 0

/-- Event names a file (given as its lines) defines, in line order with
repetitions: the names of its non-skipped lines. -/
def fileEventNames (lines : List String) : List String :=
  lines.filterMap (fun x => (parsedLine x).map Prod.fst)

/-- All event names seen across a list of input files, in order. -/
def seenNames : List (String × List String) → List String
  | [] => []
  | fl :: fls => fileEventNames fl.2 ++ seenNames fls

/-- Modelled from the spec sentence "Event universe size equals the count
of distinct non-reserved event names across all input files": the
distinct event names seen across the files with the two reserved keys
removed. Used only to compare the spec claim against the code. -/
def specDistinctNonReserved (files : List (String × List String)) :
    List String :=
  ((seenNames files).filter (fun e => !isReservedName e)).dedup

/-- Example input: a baseline and two comparison files with identical
event sets (including a patch reference in every file). -/
def exFiles : List (String × List String) :=
  [("base", ["__NAME__ Base", "__PATCH__ p0", "alpha 100", "beta 0"]),
   ("v1", ["__NAME__ V1", "__PATCH__ p1.diff", "alpha 150", "beta 5"]),
   ("v2", ["__NAME__ V2", "__PATCH__ p2.diff", "alpha 100", "beta 2"])]

/-- Example input whose second and third columns name the same file. -/
def dupFiles : List (String × List String) :=
  [("base", ["__NAME__ Base", "__PATCH__ p0", "alpha 100"]),
   ("v1", ["__NAME__ V1", "__PATCH__ p1.diff", "alpha 150"]),
   ("v1", ["__NAME__ V1", "__PATCH__ p1.diff", "alpha 150"])]

/-- Example input with a single file defining one non-reserved event. -/
def c4files : List (String × List String) :=
  [("f1", ["__NAME__ A", "ev 1"])]

/-- Example input where the comparison file defines the reserved key
__PATCH__ while the baseline does not. -/
def c5files : List (String × List String) :=
  [("f1", ["__NAME__ A", "ev 1"]),
   ("f2", ["__NAME__ B", "__PATCH__ p", "ev 2"])]

/-- Example input where the non-reserved event gamma is present in the
baseline file but absent from the comparison file. -/
def c5wfiles : List (String × List String) :=
  [("f1", ["__NAME__ A", "ev 1", "gamma 3"]),
   ("f2", ["__NAME__ B", "__PATCH__ p", "ev 2"])]

/-- Example filesystem for the run model: two well-formed files neither
of which defines the reserved key __PATCH__. -/
def c3fsys : String → Option (List String) := fun n =>
  if n = "f1" then some ["__NAME__ A", "ev 1"]
  else if n = "f2" then some ["__NAME__ B", "ev 2"]
  else none

/-- The state `loadAll exFiles` reaches. -/
def exState : LoadState :=
  { loadindex := 3,
    loaded_columnnames := ["Base", "V1", "V2"],
    loaded_filenames := ["base", "v1", "v2"],
    known_eventnames := ["__NAME__", "__PATCH__", "alpha", "beta"],
    eventnames := ["__NAME__", "__PATCH__", "alpha", "beta"],
    eventdata :=
      [("base", [("__NAME__", "Base"), ("__PATCH__", "p0"),
                 ("alpha", "100"), ("beta", "0")]),
       ("v1", [("__NAME__", "V1"), ("__PATCH__", "p1.diff"),
               ("alpha", "150"), ("beta", "5")]),
       ("v2", [("__NAME__", "V2"), ("__PATCH__", "p2.diff"),
               ("alpha", "100"), ("beta", "2")])] }

/-- The table `print_html exState` renders. -/
def exTable : Table :=
  { header := [HCell.corner, HCell.th "Base",
               HCell.thPatch "V1" "p1.diff", HCell.thPct,
               HCell.thPatch "V2" "p2.diff", HCell.thPct],
    rows := [{ event := "alpha", originVal := 100,
               deltas := [{ cls := "perfstatincr", val := 150, pct := 150 },
                          { cls := "perfstatdecr", val := 100, pct := 100 }] },
             { event := "beta", originVal := 0,
               deltas := [{ cls := "perfstatincr", val := 5, pct := 0 },
                          { cls := "perfstatincr", val := 2, pct := 0 }] }] }

/-- The state `loadAll dupFiles` reaches: one `eventdata` entry is shared
by the two columns naming the file v1. -/
def dupState : LoadState :=
  { loadindex := 3,
    loaded_columnnames := ["Base", "V1", "V1"],
    loaded_filenames := ["base", "v1", "v1"],
    known_eventnames := ["__NAME__", "__PATCH__", "alpha"],
    eventnames := ["__NAME__", "__PATCH__", "alpha"],
    eventdata :=
      [("base", [("__NAME__", "Base"), ("__PATCH__", "p0"), ("alpha", "100")]),
       ("v1", [("__NAME__", "V1"), ("__PATCH__", "p1.diff"), ("alpha", "150")])] }

/-- The table `print_html dupState` renders: the two columns naming the
same file carry identical cells in every row. -/
def dupTable : Table :=
  { header := [HCell.corner, HCell.th "Base",
               HCell.thPatch "V1" "p1.diff", HCell.thPct,
               HCell.thPatch "V1" "p1.diff", HCell.thPct],
    rows := [{ event := "alpha", originVal := 100,
               deltas := [{ cls := "perfstatincr", val := 150, pct := 150 },
                          { cls := "perfstatincr", val := 150, pct := 150 }] }] }

/-- The state `loadAll c4files` reaches: the event universe holds the
reserved key __NAME__ next to the single non-reserved event. -/
def c4state : LoadState :=
  { loadindex := 1,
    loaded_columnnames := ["A"],
    loaded_filenames := ["f1"],
    known_eventnames := ["__NAME__", "ev"],
    eventnames := ["__NAME__", "ev"],
    eventdata := [("f1", [("__NAME__", "A"), ("ev", "1")])] }

/-- The state `loadAll c5files` reaches: __PATCH__ is in the event
universe but absent from the event map of the baseline column. -/
def c5state : LoadState :=
  { loadindex := 2,
    loaded_columnnames := ["A", "B"],
    loaded_filenames := ["f1", "f2"],
    known_eventnames := ["__NAME__", "ev", "__PATCH__"],
    eventnames := ["__NAME__", "ev", "__PATCH__"],
    eventdata := [("f1", [("__NAME__", "A"), ("ev", "1")]),
                  ("f2", [("__NAME__", "B"), ("__PATCH__", "p"), ("ev", "2")])] }

/-- The state `loadAll c5wfiles` reaches: the non-reserved event gamma is
in the universe but absent from the event map of the comparison column. -/
def c5wstate : LoadState :=
  { loadindex := 2,
    loaded_columnnames := ["A", "B"],
    loaded_filenames := ["f1", "f2"],
    known_eventnames := ["__NAME__", "ev", "gamma", "__PATCH__"],
    eventnames := ["__NAME__", "ev", "gamma", "__PATCH__"],
    eventdata := [("f1", [("__NAME__", "A"), ("ev", "1"), ("gamma", "3")]),
                  ("f2", [("__NAME__", "B"), ("__PATCH__", "p"), ("ev", "2")])] }

/-- The alpha row of exTable. -/
def exRowAlpha : BodyRow :=
  { event := "alpha", originVal := 100,
    deltas := [{ cls := "perfstatincr", val := 150, pct := 150 },
               { cls := "perfstatdecr", val := 100, pct := 100 }] }

/-- The cells of the first comparison column in the alpha row of exTable. -/
def exDeltaAlpha1 : DeltaCells :=
  { cls := "perfstatincr", val := 150, pct := 150 }

/-- The beta row of exTable: its baseline value is zero. -/
def exRowBeta : BodyRow :=
  { event := "beta", originVal := 0,
    deltas := [{ cls := "perfstatincr", val := 5, pct := 0 },
               { cls := "perfstatincr", val := 2, pct := 0 }] }

/-- The cells of the first comparison column in the beta row of exTable. -/
def exDeltaBeta1 : DeltaCells :=
  { cls := "perfstatincr", val := 5, pct := 0 }

/-- The single event row of dupTable. -/
def dupRowAlpha : BodyRow :=
  { event := "alpha", originVal := 100,
    deltas := [{ cls := "perfstatincr", val := 150, pct := 150 },
               { cls := "perfstatincr", val := 150, pct := 150 }] }

/-- An empty modelled filesystem. -/
def emptyFsys : String → Option (List String) := fun _ => none

/-! Lemmas about the dict model. -/

theorem dlookup_dinsert_self {α : Type} (m : List (String × α)) (k : String)
    (v : α) : dlookup (dinsert m k v) k = some v := by
  induction m with
  | nil => simp [dinsert, dlookup]
  | cons p rest ih =>
      obtain ⟨k', v'⟩ := p
      by_cases h : k' = k
      · subst h; simp [dinsert, dlookup]
      · simp [dinsert, dlookup, h, ih]

theorem dlookup_dinsert_ne {α : Type} (m : List (String × α)) (k k' : String)
    (v : α) (h : k' ≠ k) :
    dlookup (dinsert m k v) k' = dlookup m k' := by
  induction m with
  | nil =>
      simp only [dinsert, dlookup]
      rw [if_neg (Ne.symm h)]
  | cons p rest ih =>
      obtain ⟨a, b⟩ := p
      by_cases ha : a = k
      · subst ha
        simp only [dinsert, if_pos rfl, dlookup]
        rw [if_neg (Ne.symm h), if_neg (Ne.symm h)]
      · simp only [dinsert, if_neg ha, dlookup]
        by_cases ha' : a = k'
        · simp [ha']
        · simp [ha', ih]

theorem dlookup_eq_none_iff {α : Type} (m : List (String × α)) (k : String) :
    dlookup m k = none ↔ k ∉ m.map Prod.fst := by
  induction m with
  | nil => simp [dlookup]
  | cons p rest ih =>
      obtain ⟨a, b⟩ := p
      by_cases ha : a = k
      · subst ha; simp [dlookup]
      · simp [dlookup, ha, ih, Ne.symm ha]

theorem map_fst_dinsert_of_mem {α : Type} (m : List (String × α)) (k : String)
    (v : α) (h : dlookup m k ≠ none) :
    (dinsert m k v).map Prod.fst = m.map Prod.fst := by
  induction m with
  | nil => simp [dlookup] at h
  | cons p rest ih =>
      obtain ⟨a, b⟩ := p
      by_cases ha : a = k
      · subst ha; simp [dinsert]
      · simp only [dlookup, if_neg ha] at h
        simp [dinsert, ha, ih h]

theorem map_fst_dinsert_of_not_mem {α : Type} (m : List (String × α))
    (k : String) (v : α) (h : dlookup m k = none) :
    (dinsert m k v).map Prod.fst = m.map Prod.fst ++ [k] := by
  induction m with
  | nil => simp [dinsert]
  | cons p rest ih =>
      obtain ⟨a, b⟩ := p
      by_cases ha : a = k
      · subst ha; simp [dlookup] at h
      · simp only [dlookup, if_neg ha] at h
        simp [dinsert, ha, ih h]

theorem nodup_map_fst_dinsert {α : Type} (m : List (String × α)) (k : String)
    (v : α) (h : (m.map Prod.fst).Nodup) :
    ((dinsert m k v).map Prod.fst).Nodup := by
  cases hdl : dlookup m k with
  | none =>
      rw [map_fst_dinsert_of_not_mem m k v hdl]
      have hk : k ∉ m.map Prod.fst := (dlookup_eq_none_iff m k).mp hdl
      simp [List.nodup_append, h, hk]
  | some w =>
      rw [map_fst_dinsert_of_mem m k v (by simp [hdl])]
      exact h

/-! Lemmas about the sort model. -/

theorem insertSorted_perm (e : String) (l : List String) :
    (insertSorted e l).Perm (e :: l) := by
  induction l with
  | nil => simp [insertSorted]
  | cons x xs ih =>
      simp only [insertSorted]
      split
      · exact List.Perm.refl _
      · exact (ih.cons x).trans (List.Perm.swap e x xs)

theorem sortNames_perm (l : List String) : (sortNames l).Perm l := by
  induction l with
  | nil => simp [sortNames]
  | cons x xs ih =>
      exact (insertSorted_perm x (sortNames xs)).trans (ih.cons x)

theorem mem_sortNames (l : List String) (e : String) :
    e ∈ sortNames l ↔ e ∈ l :=
  (sortNames_perm l).mem_iff

/-! Lemmas about the loader. -/

theorem processLine_none (fn : String) (st : LoadState) (x : String)
    (h : parsedLine x = none) : processLine fn st x = st := by
  unfold processLine; rw [h]

theorem processLine_some_mem (fn : String) (st : LoadState) (x : String)
    (n c : String) (hp : parsedLine x = some (n, c))
    (h : n ∈ st.known_eventnames) :
    processLine fn st x =
      { st with eventdata := dinsert st.eventdata fn
                  (dinsert ((dlookup st.eventdata fn).getD []) n c) } := by
  unfold processLine; rw [hp]; simp [h]

theorem processLine_some_new (fn : String) (st : LoadState) (x : String)
    (n c : String) (hp : parsedLine x = some (n, c))
    (h : n ∉ st.known_eventnames) :
    processLine fn st x =
      { st with
        known_eventnames := st.known_eventnames ++ [n],
        eventnames := st.eventnames ++ [n],
        eventdata := dinsert st.eventdata fn
                       (dinsert ((dlookup st.eventdata fn).getD []) n c) } := by
  unfold processLine; rw [hp]; simp [h]

theorem processLine_fields (fn : String) (st : LoadState) (x : String) :
    (processLine fn st x).loaded_filenames = st.loaded_filenames ∧
    (processLine fn st x).loaded_columnnames = st.loaded_columnnames := by
  cases hp : parsedLine x with
  | none => rw [processLine_none fn st x hp]; exact ⟨rfl, rfl⟩
  | some p =>
      obtain ⟨n, c⟩ := p
      by_cases h : n ∈ st.known_eventnames
      · rw [processLine_some_mem fn st x n c hp h]; exact ⟨rfl, rfl⟩
      · rw [processLine_some_new fn st x n c hp h]; exact ⟨rfl, rfl⟩

theorem mem_fileEventNames_cons (x : String) (ls : List String) (n' : String) :
    n' ∈ fileEventNames (x :: ls) ↔
      (parsedLine x).map Prod.fst = some n' ∨ n' ∈ fileEventNames ls := by
  simp only [fileEventNames, List.filterMap_cons]
  cases hp : parsedLine x with
  | none => simp
  | some p => obtain ⟨n, c⟩ := p; simp [eq_comm]

theorem processLine_universe (fn : String) (st : LoadState) (x : String)
    (hkn : st.known_eventnames = st.eventnames) :
    (processLine fn st x).known_eventnames = (processLine fn st x).eventnames ∧
    (st.eventnames.Nodup → (processLine fn st x).eventnames.Nodup) ∧
    (∀ n', n' ∈ (processLine fn st x).eventnames ↔
        n' ∈ st.eventnames ∨ (parsedLine x).map Prod.fst = some n') := by
  cases hp : parsedLine x with
  | none =>
      rw [processLine_none fn st x hp]
      refine ⟨hkn, fun hd => hd, fun n' => ?_⟩
      simp
  | some p =>
      obtain ⟨n, c⟩ := p
      by_cases h : n ∈ st.known_eventnames
      · rw [processLine_some_mem fn st x n c hp h]
        refine ⟨hkn, fun hd => hd, fun n' => ?_⟩
        simp only [Option.map_some', Option.some.injEq]
        constructor
        · exact fun hh => Or.inl hh
        · rintro (hh | rfl)
          · exact hh
          · exact hkn ▸ h
      · rw [processLine_some_new fn st x n c hp h]
        rw [hkn] at h
        refine ⟨by rw [hkn], fun hd => ?_, fun n' => ?_⟩
        · simp [List.nodup_append, hd, h]
        · simp only [List.mem_append, List.mem_singleton,
            Option.map_some', Option.some.injEq]
          constructor
          · rintro (hh | rfl)
            · exact Or.inl hh
            · exact Or.inr rfl
          · rintro (hh | rfl)
            · exact Or.inl hh
            · exact Or.inr rfl

theorem processLine_keys_nodup (fn : String) (st : LoadState) (x : String)
    (h : (st.eventdata.map Prod.fst).Nodup) :
    ((processLine fn st x).eventdata.map Prod.fst).Nodup := by
  cases hp : parsedLine x with
  | none => rw [processLine_none fn st x hp]; exact h
  | some p =>
      obtain ⟨n, c⟩ := p
      by_cases hm : n ∈ st.known_eventnames
      · rw [processLine_some_mem fn st x n c hp hm]
        exact nodup_map_fst_dinsert _ _ _ h
      · rw [processLine_some_new fn st x n c hp hm]
        exact nodup_map_fst_dinsert _ _ _ h

theorem processLine_hasKey_none (fn : String) (st : LoadState) (x : String)
    (k : String)
    (hk : ∀ m, dlookup st.eventdata fn = some m → dlookup m k = none)
    (hn : (parsedLine x).map Prod.fst ≠ some k) :
    ∀ m, dlookup (processLine fn st x).eventdata fn = some m →
      dlookup m k = none := by
  cases hp : parsedLine x with
  | none => rw [processLine_none fn st x hp]; exact hk
  | some p =>
      obtain ⟨n, c⟩ := p
      have hnk : n ≠ k := by
        rw [hp] at hn; simpa using hn
      have key : ∀ m,
          dlookup (dinsert st.eventdata fn
            (dinsert ((dlookup st.eventdata fn).getD []) n c)) fn = some m →
          dlookup m k = none := by
        intro m hm
        rw [dlookup_dinsert_self] at hm
        injection hm with hm
        subst hm
        rw [dlookup_dinsert_ne _ _ _ _ (Ne.symm hnk)]
        cases hcur : dlookup st.eventdata fn with
        | none => simp [dlookup]
        | some m0 => simpa using hk m0 hcur
      by_cases hm : n ∈ st.known_eventnames
      · rw [processLine_some_mem fn st x n c hp hm]; exact key
      · rw [processLine_some_new fn st x n c hp hm]; exact key

theorem foldl_processLine_fields (fn : String) (lines : List String) :
    ∀ st : LoadState,
      (lines.foldl (processLine fn) st).loaded_filenames =
        st.loaded_filenames ∧
      (lines.foldl (processLine fn) st).loaded_columnnames =
        st.loaded_columnnames := by
  induction lines with
  | nil => intro st; exact ⟨rfl, rfl⟩
  | cons x ls ih =>
      intro st
      simp only [List.foldl_cons]
      obtain ⟨h1, h2⟩ := ih (processLine fn st x)
      obtain ⟨g1, g2⟩ := processLine_fields fn st x
      exact ⟨h1.trans g1, h2.trans g2⟩

theorem foldl_processLine_universe (fn : String) (lines : List String) :
    ∀ st : LoadState, st.known_eventnames = st.eventnames →
      (lines.foldl (processLine fn) st).known_eventnames =
        (lines.foldl (processLine fn) st).eventnames ∧
      (st.eventnames.Nodup →
        (lines.foldl (processLine fn) st).eventnames.Nodup) ∧
      (∀ n', n' ∈ (lines.foldl (processLine fn) st).eventnames ↔
          n' ∈ st.eventnames ∨ n' ∈ fileEventNames lines) := by
  induction lines with
  | nil =>
      intro st hkn
      refine ⟨hkn, fun hd => hd, fun n' => ?_⟩
      simp [fileEventNames]
  | cons x ls ih =>
      intro st hkn
      simp only [List.foldl_cons]
      obtain ⟨s1, s2, s3⟩ := processLine_universe fn st x hkn
      obtain ⟨h1, h2, h3⟩ := ih (processLine fn st x) s1
      refine ⟨h1, fun hd => h2 (s2 hd), fun n' => ?_⟩
      rw [h3 n', s3 n', mem_fileEventNames_cons]
      tauto

theorem foldl_processLine_keys_nodup (fn : String) (lines : List String) :
    ∀ st : LoadState, (st.eventdata.map Prod.fst).Nodup →
      (((lines.foldl (processLine fn) st).eventdata.map Prod.fst)).Nodup := by
  induction lines with
  | nil => intro st h; exact h
  | cons x ls ih =>
      intro st h
      simp only [List.foldl_cons]
      exact ih (processLine fn st x) (processLine_keys_nodup fn st x h)

theorem foldl_processLine_hasKey_none (fn : String) (lines : List String)
    (k : String) :
    ∀ st : LoadState,
      (∀ m, dlookup st.eventdata fn = some m → dlookup m k = none) →
      k ∉ fileEventNames lines →
      ∀ m, dlookup (lines.foldl (processLine fn) st).eventdata fn = some m →
        dlookup m k = none := by
  induction lines with
  | nil => intro st hk _; exact hk
  | cons x ls ih =>
      intro st hk hkmem
      simp only [List.foldl_cons]
      have hx : (parsedLine x).map Prod.fst ≠ some k := by
        intro hc
        exact hkmem ((mem_fileEventNames_cons x ls k).mpr (Or.inl hc))
      have hls : k ∉ fileEventNames ls := by
        intro hc
        exact hkmem ((mem_fileEventNames_cons x ls k).mpr (Or.inr hc))
      exact ih (processLine fn st x)
        (processLine_hasKey_none fn st x k hk hx) hls

theorem read_filename_ok_fields (st : LoadState) (fn : String)
    (lines : List String) (st' : LoadState)
    (h : read_filename st fn lines = .ok st') :
    st'.loaded_filenames =
      (lines.foldl (processLine fn) st).loaded_filenames ++ [fn] ∧
    (∃ nm, st'.loaded_columnnames =
      (lines.foldl (processLine fn) st).loaded_columnnames ++ [nm]) ∧
    st'.eventnames = (lines.foldl (processLine fn) st).eventnames ∧
    st'.known_eventnames =
      (lines.foldl (processLine fn) st).known_eventnames ∧
    st'.eventdata = (lines.foldl (processLine fn) st).eventdata := by
  unfold read_filename at h
  simp only [] at h
  split at h
  · exact absurd h (by simp)
  · split at h
    · exact absurd h (by simp)
    · injection h with h
      subst h
      exact ⟨rfl, ⟨_, rfl⟩, rfl, rfl, rfl⟩

theorem read_filename_char (st : LoadState) (fn : String)
    (lines : List String) (st' : LoadState)
    (h : read_filename st fn lines = .ok st')
    (hkn : st.known_eventnames = st.eventnames) :
    st'.known_eventnames = st'.eventnames ∧
    (st.eventnames.Nodup → st'.eventnames.Nodup) ∧
    ((st.eventdata.map Prod.fst).Nodup →
      (st'.eventdata.map Prod.fst).Nodup) ∧
    st'.loaded_filenames = st.loaded_filenames ++ [fn] ∧
    st'.loaded_columnnames.length = st.loaded_columnnames.length + 1 ∧
    (∀ n', n' ∈ st'.eventnames ↔
      n' ∈ st.eventnames ∨ n' ∈ fileEventNames lines) := by
  obtain ⟨f1, ⟨nm, f2⟩, f3, f4, f5⟩ := read_filename_ok_fields st fn lines st' h
  obtain ⟨u1, u2, u3⟩ := foldl_processLine_universe fn lines st hkn
  obtain ⟨g1, g2⟩ := foldl_processLine_fields fn lines st
  refine ⟨?_, ?_, ?_, ?_, ?_, ?_⟩
  · rw [f3, f4]; exact u1
  · intro hd; rw [f3]; exact u2 hd
  · intro hd; rw [f5]; exact foldl_processLine_keys_nodup fn lines st hd
  · rw [f1, g1]
  · rw [f2, g2]; simp
  · intro n'; rw [f3]; exact u3 n'

/-- Invariants every state reachable by loading from the initial state
satisfies. -/
structure LoadInv (st : LoadState) : Prop where
  kn : st.known_eventnames = st.eventnames
  nodupEvents : st.eventnames.Nodup
  nodupKeys : (st.eventdata.map Prod.fst).Nodup

theorem loadAllFrom_char (files : List (String × List String)) :
    ∀ st st' : LoadState, loadAllFrom st files = .ok st' → LoadInv st →
      LoadInv st' ∧
      st'.loaded_filenames = st.loaded_filenames ++ files.map Prod.fst ∧
      st'.loaded_columnnames.length =
        st.loaded_columnnames.length + files.length ∧
      (∀ n', n' ∈ st'.eventnames ↔
        n' ∈ st.eventnames ∨ n' ∈ seenNames files) := by
  induction files with
  | nil =>
      intro st st' h hinv
      unfold loadAllFrom at h
      injection h with h
      subst h
      refine ⟨hinv, by simp, by simp, fun n' => ?_⟩
      simp [seenNames]
  | cons fl fls ih =>
      intro st st' h hinv
      unfold loadAllFrom at h
      split at h
      · exact absurd h (by simp)
      · rename_i st1 hread
        obtain ⟨c1, c2, c3, c4, c5, c6⟩ :=
          read_filename_char st fl.1 fl.2 st1 hread hinv.kn
        have hinv1 : LoadInv st1 :=
          ⟨c1, c2 hinv.nodupEvents, c3 hinv.nodupKeys⟩
        obtain ⟨d1, d2, d3, d4⟩ := ih st1 st' h hinv1
        refine ⟨d1, ?_, ?_, fun n' => ?_⟩
        · rw [d2, c4]; simp
        · rw [d3, c5]; simp [Nat.add_assoc, Nat.add_comm 1]
        · rw [d4 n', c6 n']
          show _ ↔ _ ∨ n' ∈ seenNames (fl :: fls)
          simp only [seenNames, List.mem_append]
          tauto

theorem loadAll_char (files : List (String × List String))
    (st' : LoadState) (h : loadAll files = .ok st') :
    LoadInv st' ∧
    st'.loaded_filenames = files.map Prod.fst ∧
    st'.loaded_columnnames.length = files.length ∧
    (∀ n', n' ∈ st'.eventnames ↔ n' ∈ seenNames files) := by
  have hinv : LoadInv initState := ⟨rfl, List.nodup_nil, List.nodup_nil⟩
  obtain ⟨d1, d2, d3, d4⟩ := loadAllFrom_char files initState st' h hinv
  refine ⟨d1, by simpa [initState] using d2, by simpa [initState] using d3, fun n' => ?_⟩
  rw [d4 n']
  simp [initState]

/-! Lemmas about the renderer. -/

theorem getEventMap_ok (st : LoadState) (f : String)
    (m : List (String × String)) :
    getEventMap st f = .ok m ↔ dlookup st.eventdata f = some m := by
  unfold getEventMap
  cases dlookup st.eventdata f <;> simp

theorem getKey_ok (m : List (String × String)) (k v : String) :
    getKey m k = .ok v ↔ dlookup m k = some v := by
  unfold getKey
  cases dlookup m k <;> simp

theorem mkDelta_cls (v0 v : ℚ) :
    ((mkDelta v0 v).cls = "perfstatincr" ∨
      (mkDelta v0 v).cls = "perfstatdecr") ∧
    ((mkDelta v0 v).cls = "perfstatincr" ↔ v0 < v) := by
  unfold mkDelta
  by_cases h : v0 < v
  · simp [h]
  · have hne : ("perfstatdecr" : String) ≠ "perfstatincr" := by decide
    simp [h, hne]

theorem mkDelta_val (v0 v : ℚ) : (mkDelta v0 v).val = v := rfl

theorem mkDelta_pct (v0 v : ℚ) :
    (v0 ≠ 0 → (mkDelta v0 v).pct = 100 * v / v0) ∧
    (v0 = 0 → (mkDelta v0 v).pct = 0) := by
  constructor
  · intro h
    unfold mkDelta
    simp only [if_pos h]
    ring
  · intro h
    unfold mkDelta
    simp [h]

theorem deltaCellsFor_inv (st : LoadState) (v0 : ℚ) (e f : String)
    (d : DeltaCells) (h : deltaCellsFor st v0 e f = .ok d) :
    ∃ m s v, dlookup st.eventdata f = some m ∧ dlookup m e = some s ∧
      pyFloat s = .ok v ∧ d = mkDelta v0 v := by
  unfold deltaCellsFor at h
  split at h
  · exact absurd h (by simp)
  · rename_i m hm
    split at h
    · exact absurd h (by simp)
    · rename_i s hsk
      split at h
      · exact absurd h (by simp)
      · rename_i v hv
        injection h with h
        subst h
        exact ⟨m, s, v, (getEventMap_ok st f m).mp hm,
          (getKey_ok m e s).mp hsk, hv, rfl⟩

theorem rowDeltas_inv (st : LoadState) (v0 : ℚ) (e : String) :
    ∀ fs ds, rowDeltas st v0 e fs = .ok ds →
      (∀ (k : Nat) (f : String), fs[k]? = some f → ∃ d, ds[k]? = some d ∧
        deltaCellsFor st v0 e f = .ok d) ∧
      (∀ d ∈ ds, ∃ v, d = mkDelta v0 v) ∧
      (∀ f ∈ fs, ∃ m s, dlookup st.eventdata f = some m ∧
        dlookup m e = some s) := by
  intro fs
  induction fs with
  | nil =>
      intro ds h
      unfold rowDeltas at h
      injection h with h
      subst h
      refine ⟨fun k f hk => ?_, fun d hd => absurd hd (by simp),
        fun f hf => absurd hf (by simp)⟩
      simp at hk
  | cons f fs ih =>
      intro ds h
      unfold rowDeltas at h
      split at h
      · exact absurd h (by simp)
      · rename_i d hd
        split at h
        · exact absurd h (by simp)
        · rename_i ds' hds'
          injection h with h
          subst h
          obtain ⟨g1, g2, g3⟩ := ih ds' hds'
          obtain ⟨m, s, v, hm, hs, hv, hdeq⟩ :=
            deltaCellsFor_inv st v0 e f d hd
          refine ⟨fun k g hk => ?_, fun d' hd' => ?_, fun g hg => ?_⟩
          · cases k with
            | zero =>
                simp only [List.getElem?_cons_zero, Option.some.injEq] at hk
                subst hk
                exact ⟨d, by simp, hd⟩
            | succ k' =>
                simp only [List.getElem?_cons_succ] at hk ⊢
                exact g1 k' g hk
          · rcases List.mem_cons.mp hd' with rfl | hmem
            · exact ⟨v, hdeq⟩
            · exact g2 d' hmem
          · rcases List.mem_cons.mp hg with rfl | hmem
            · exact ⟨m, s, hm, hs⟩
            · exact g3 g hmem

theorem renderRow_inv (st : LoadState) (e : String) (r : BodyRow)
    (h : renderRow st e = .ok r) :
    ∃ f0 fs m0 s0, st.loaded_filenames = f0 :: fs ∧
      dlookup st.eventdata f0 = some m0 ∧
      dlookup m0 e = some s0 ∧
      pyFloat s0 = .ok r.originVal ∧
      rowDeltas st r.originVal e fs = .ok r.deltas ∧
      r.event = e := by
  unfold renderRow at h
  split at h
  · exact absurd h (by simp)
  · rename_i f0 fs hlf
    split at h
    · exact absurd h (by simp)
    · rename_i m0 hm0
      split at h
      · exact absurd h (by simp)
      · rename_i s0 hs0
        split at h
        · exact absurd h (by simp)
        · rename_i v0 hv0
          split at h
          · exact absurd h (by simp)
          · rename_i ds hds
            injection h with h
            subst h
            exact ⟨f0, fs, m0, s0, hlf,
              (getEventMap_ok st f0 m0).mp hm0,
              (getKey_ok m0 e s0).mp hs0, hv0, hds, rfl⟩

theorem renderRows_inv (st : LoadState) :
    ∀ names rs, renderRows st names = .ok rs →
      (∀ r ∈ rs, ∃ e, e ∈ names ∧ renderRow st e = .ok r) ∧
      (∀ e ∈ names, isReservedName e = false →
        ∃ r, r ∈ rs ∧ renderRow st e = .ok r) := by
  intro names
  induction names with
  | nil =>
      intro rs h
      unfold renderRows at h
      injection h with h
      subst h
      exact ⟨fun r hr => absurd hr (by simp),
        fun e he => absurd he (by simp)⟩
  | cons e es ih =>
      intro rs h
      unfold renderRows at h
      by_cases hres : isReservedName e
      · rw [if_pos hres] at h
        obtain ⟨g1, g2⟩ := ih rs h
        refine ⟨fun r hr => ?_, fun e' he' hres' => ?_⟩
        · obtain ⟨e', he', hrr⟩ := g1 r hr
          exact ⟨e', List.mem_cons_of_mem e he', hrr⟩
        · rcases List.mem_cons.mp he' with rfl | hmem
          · rw [hres] at hres'; cases hres'
          · exact g2 e' hmem hres'
      · rw [if_neg hres] at h
        split at h
        · exact absurd h (by simp)
        · rename_i r hr
          split at h
          · exact absurd h (by simp)
          · rename_i rs' hrs'
            injection h with h
            subst h
            obtain ⟨g1, g2⟩ := ih rs' hrs'
            refine ⟨fun r' hr' => ?_, fun e' he' hres' => ?_⟩
            · rcases List.mem_cons.mp hr' with rfl | hmem
              · exact ⟨e, List.mem_cons_self e es, hr⟩
              · obtain ⟨e', he', hrr⟩ := g1 r' hmem
                exact ⟨e', List.mem_cons_of_mem e he', hrr⟩
            · rcases List.mem_cons.mp he' with rfl | hmem
              · exact ⟨r, List.mem_cons_self r rs', hr⟩
              · obtain ⟨r', hr', hrr⟩ := g2 e' hmem hres'
                exact ⟨r', List.mem_cons_of_mem r hr', hrr⟩

theorem renderRows_map_event (st : LoadState) :
    ∀ names rs, renderRows st names = .ok rs →
      rs.map BodyRow.event = names.filter (fun e => !isReservedName e) := by
  intro names
  induction names with
  | nil =>
      intro rs h
      unfold renderRows at h
      injection h with h
      subst h
      rfl
  | cons e es ih =>
      intro rs h
      unfold renderRows at h
      by_cases hres : isReservedName e
      · rw [if_pos hres] at h
        rw [List.filter_cons_of_neg (by simp [hres])]
        exact ih rs h
      · rw [if_neg hres] at h
        split at h
        · exact absurd h (by simp)
        · rename_i r hr
          split at h
          · exact absurd h (by simp)
          · rename_i rs' hrs'
            injection h with h
            subst h
            rw [List.filter_cons_of_pos (by simp [hres])]
            simp only [List.map_cons]
            rw [ih rs' hrs']
            obtain ⟨_, _, _, _, _, _, _, _, _, hev⟩ :=
              renderRow_inv st e r hr
            rw [hev]

theorem headerDeltaCells_length (st : LoadState) :
    ∀ (cs : List String) (i : Nat) (hs : List HCell),
      headerDeltaCells st cs i = .ok hs → hs.length = 2 * cs.length := by
  intro cs
  induction cs with
  | nil =>
      intro i hs h
      unfold headerDeltaCells at h
      injection h with h
      subst h
      rfl
  | cons c cs ih =>
      intro i hs h
      unfold headerDeltaCells at h
      split at h
      · exact absurd h (by simp)
      · split at h
        · exact absurd h (by simp)
        · split at h
          · exact absurd h (by simp)
          · rename_i p hp
            split at h
            · exact absurd h (by simp)
            · rename_i rest hrest
              injection h with h
              subst h
              rw [List.length_append, ih (i + 1) rest hrest]
              by_cases hpe : p ≠ ""
              · rw [if_pos hpe]
                simp [List.length_cons, Nat.mul_succ, Nat.add_comm]
              · rw [if_neg hpe]
                simp [List.length_cons, Nat.mul_succ, Nat.add_comm]

theorem print_html_inv (st : LoadState) (t : Table)
    (h : print_html st = .ok t) :
    ∃ c0 cs hs, st.loaded_columnnames = c0 :: cs ∧
      headerDeltaCells st cs 1 = .ok hs ∧
      renderRows st (sortNames st.eventnames) = .ok t.rows ∧
      t.header = HCell.corner :: HCell.th c0 :: hs := by
  unfold print_html at h
  split at h
  · exact absurd h (by simp)
  · rename_i c0 cs hcols
    split at h
    · exact absurd h (by simp)
    · rename_i hs hhs
      split at h
      · exact absurd h (by simp)
      · rename_i rows hrows
        injection h with h
        subst h
        exact ⟨c0, cs, hs, hcols, hhs, hrows, rfl⟩

/-! Claim theorems. -/

/-- C1: for every rendered event row and every non-baseline column, the
value and percentage cells carry the class perfstatincr if and only if
the numeric value of the column is strictly greater than the numeric
value of the baseline, and carry perfstatdecr otherwise, so equal values are
classified as decrease. (The baseline value cell is rendered by
`print_html` as `BodyRow.originVal` with no class attribute at all,
mirroring the class-free td the script prints for it; both cells of a
comparison column share the single `DeltaCells.cls` field, as the script
prints the same class on both.) -/
theorem C1_increase_class (st : LoadState) (t : Table)
    (h : print_html st = .ok t) :
    ∀ row ∈ t.rows, ∀ d ∈ row.deltas,
      (d.cls = "perfstatincr" ∨ d.cls = "perfstatdecr") ∧
      (d.cls = "perfstatincr" ↔ row.originVal < d.val) ∧
      (d.val = row.originVal → d.cls = "perfstatdecr") := by
  intro row hrow d hd
  obtain ⟨c0, cs, hs, _, _, hrows, _⟩ := print_html_inv st t h
  obtain ⟨e, _, hrr⟩ := (renderRows_inv st _ _ hrows).1 row hrow
  obtain ⟨f0, fs, m0, s0, _, _, _, _, hds, _⟩ := renderRow_inv st e row hrr
  obtain ⟨v, rfl⟩ :=
    (rowDeltas_inv st row.originVal e fs row.deltas hds).2.1 d hd
  obtain ⟨ho, hiff⟩ := mkDelta_cls row.originVal v
  refine ⟨ho, by rw [mkDelta_val]; exact hiff, ?_⟩
  intro hv
  rw [mkDelta_val] at hv
  rcases ho with h1 | h1
  · exfalso
    rw [hiff] at h1
    rw [hv] at h1
    exact lt_irrefl _ h1
  · exact h1

/-- C1 witness: the conclusion of C1_increase_class at the loaded example
input, for the first comparison cell of the alpha row. -/
theorem C1_witness :
    (exDeltaAlpha1.cls = "perfstatincr" ∨
      exDeltaAlpha1.cls = "perfstatdecr") ∧
    (exDeltaAlpha1.cls = "perfstatincr" ↔
      exRowAlpha.originVal < exDeltaAlpha1.val) ∧
    (exDeltaAlpha1.val = exRowAlpha.originVal →
      exDeltaAlpha1.cls = "perfstatdecr") :=
  C1_increase_class exState exTable (by with_unfolding_all decide)
    exRowAlpha (by with_unfolding_all decide)
    exDeltaAlpha1 (by with_unfolding_all decide)

/-- C2: for every rendered event row and every non-baseline column, the
percentage equals 100 × V / B where V is the numeric value of the column
and B the numeric value of the baseline, whenever B is not zero; when B is
exactly zero the percentage equals 0. -/
theorem C2_percentage (st : LoadState) (t : Table)
    (h : print_html st = .ok t) :
    ∀ row ∈ t.rows, ∀ d ∈ row.deltas,
      (row.originVal ≠ 0 → d.pct = 100 * d.val / row.originVal) ∧
      (row.originVal = 0 → d.pct = 0) := by
  intro row hrow d hd
  obtain ⟨c0, cs, hs, _, _, hrows, _⟩ := print_html_inv st t h
  obtain ⟨e, _, hrr⟩ := (renderRows_inv st _ _ hrows).1 row hrow
  obtain ⟨f0, fs, m0, s0, _, _, _, _, hds, _⟩ := renderRow_inv st e row hrr
  obtain ⟨v, rfl⟩ :=
    (rowDeltas_inv st row.originVal e fs row.deltas hds).2.1 d hd
  obtain ⟨p1, p2⟩ := mkDelta_pct row.originVal v
  constructor
  · intro h0
    rw [mkDelta_val]
    exact p1 h0
  · exact p2

/-- C2 witness: the conclusion of C2_percentage at the loaded example
input, for the first comparison cell of the beta row, whose baseline
value is zero. -/
theorem C2_witness :
    (exRowBeta.originVal ≠ 0 →
      exDeltaBeta1.pct = 100 * exDeltaBeta1.val / exRowBeta.originVal) ∧
    (exRowBeta.originVal = 0 → exDeltaBeta1.pct = 0) :=
  C2_percentage exState exTable (by with_unfolding_all decide)
    exRowBeta (by with_unfolding_all decide)
    exDeltaBeta1 (by with_unfolding_all decide)

/-- C3: the script documents __PATCH__ as optional, but the renderer
reads `eventdata[f]["__PATCH__"]` with a bare subscript, so a
non-baseline column whose file does not define __PATCH__ raises a
KeyError instead of rendering a plain header cell: with two well-formed
files neither defining __PATCH__, both files load successfully and the
run dies with `KeyError: __PATCH__`. -/
theorem C3_patch_keyerror :
    (runLoads initState c3fsys ["f1", "f2"]).isOk = true ∧
    run ["prog", "f1", "f2"] c3fsys = .exn (Err.keyError "__PATCH__") := by
  constructor
  · with_unfolding_all decide
  · with_unfolding_all decide

/-- C4 (amended): after a successful load the event universe is
duplicate-free and holds exactly the distinct event names seen across
all input files, reserved keys included — its size is the number of
distinct event names, not the number of distinct non-reserved ones. -/
theorem C4_universe (files : List (String × List String)) (st : LoadState)
    (h : loadAll files = .ok st) :
    st.eventnames.Nodup ∧
    (∀ n, n ∈ st.eventnames ↔ n ∈ seenNames files) ∧
    st.eventnames.length = (seenNames files).toFinset.card := by
  obtain ⟨inv, _, _, hmem⟩ := loadAll_char files st h
  refine ⟨inv.nodupEvents, hmem, ?_⟩
  have hfin : st.eventnames.toFinset = (seenNames files).toFinset := by
    ext n
    simp only [List.mem_toFinset]
    exact hmem n
  rw [← hfin]
  exact (List.toFinset_card_of_nodup inv.nodupEvents).symm

/-- C4 counterexample: a single file defining one non-reserved event (and
the mandatory __NAME__) loads into a universe of size 2, while the count
of distinct non-reserved event names is 1 — the claimed equation fails. -/
theorem C4_counterexample :
    loadAll c4files = .ok c4state ∧
    c4state.eventnames.length = 2 ∧
    (specDistinctNonReserved c4files).length = 1 ∧
    c4state.eventnames.length ≠ (specDistinctNonReserved c4files).length := by
  refine ⟨?_, ?_, ?_, ?_⟩ <;> with_unfolding_all decide

/-- C4 witness: the conclusion of C4_universe at the single-file example
input, with the membership equivalence instantiated at the event ev. -/
theorem C4_witness :
    c4state.eventnames.Nodup ∧
    ("ev" ∈ c4state.eventnames ↔ "ev" ∈ seenNames c4files) ∧
    c4state.eventnames.length = (seenNames c4files).toFinset.card := by
  obtain ⟨a, b, c⟩ := C4_universe c4files c4state (by with_unfolding_all decide)
  exact ⟨a, b "ev", c⟩

/-- C5 (amended): a non-reserved event name that is in the event universe
but absent from the event map of some loaded column makes rendering fail
(the row loop hits a KeyError-equivalent) rather than emit a placeholder
or skip the row. Restricting to non-reserved names is necessary: a
reserved name (such as __PATCH__) can be in the universe yet absent from
the baseline column while rendering succeeds, because reserved names are
skipped by the row loop. -/
theorem C5_missing_event (st : LoadState) (e f : String)
    (he : e ∈ st.eventnames) (h1 : e ≠ "__NAME__") (h2 : e ≠ "__PATCH__")
    (hf : f ∈ st.loaded_filenames)
    (hmiss : dlookup ((dlookup st.eventdata f).getD []) e = none) :
    (print_html st).isOk = false := by
  cases hph : print_html st with
  | error er => rfl
  | ok t =>
      exfalso
      obtain ⟨c0, cs, hs, _, _, hrows, _⟩ := print_html_inv st t hph
      have hres : isReservedName e = false := by
        unfold isReservedName
        simp [h1, h2]
      have hemem : e ∈ sortNames st.eventnames := (mem_sortNames _ _).mpr he
      obtain ⟨r, _, hr⟩ := (renderRows_inv st _ _ hrows).2 e hemem hres
      obtain ⟨f0, fs, m0, s0, hlf, hm0, hs0, _, hds, _⟩ :=
        renderRow_inv st e r hr
      rw [hlf] at hf
      rcases List.mem_cons.mp hf with rfl | hffs
      · rw [hm0] at hmiss
        simp only [Option.getD_some] at hmiss
        rw [hs0] at hmiss
        cases hmiss
      · obtain ⟨m, s, hm, hsm⟩ :=
          (rowDeltas_inv st r.originVal e fs r.deltas hds).2.2 f hffs
        rw [hm] at hmiss
        simp only [Option.getD_some] at hmiss
        rw [hsm] at hmiss
        cases hmiss

/-- C5 counterexample: with the universe [__NAME__, ev, __PATCH__] where
the baseline column f1 lacks the reserved key __PATCH__, rendering
nevertheless succeeds — the claim quantified over every universe event,
reserved ones included, is false. -/
theorem C5_counterexample :
    loadAll c5files = .ok c5state ∧
    "__PATCH__" ∈ c5state.eventnames ∧
    "f1" ∈ c5state.loaded_filenames ∧
    dlookup ((dlookup c5state.eventdata "f1").getD []) "__PATCH__" = none ∧
    (print_html c5state).isOk = true := by
  refine ⟨?_, ?_, ?_, ?_, ?_⟩ <;> with_unfolding_all decide

/-- C5 witness: the conclusion of C5_missing_event at a loaded input
where the non-reserved event gamma is missing from column f2. -/
theorem C5_witness : (print_html c5wstate).isOk = false :=
  C5_missing_event c5wstate "gamma" "f2"
    (by with_unfolding_all decide) (by with_unfolding_all decide)
    (by with_unfolding_all decide) (by with_unfolding_all decide)
    (by with_unfolding_all decide)

/-- C6: for every well-formed input of N files whose event sets are
identical, the rendered header row has exactly 1 + 1 + 2 × (N − 1)
cells: the empty corner cell, the baseline label cell, and a label cell
plus a percentage cell per comparison column. -/
theorem C6_header_count (files : List (String × List String))
    (st : LoadState) (t : Table) (hload : loadAll files = .ok st)
    (_hsets : ∀ p ∈ files, ∀ q ∈ files,
      ∀ e ∈ fileEventNames p.2, e ∈ fileEventNames q.2)
    (hr : print_html st = .ok t) :
    t.header.length = 1 + 1 + 2 * (files.length - 1) := by
  obtain ⟨inv, hlf, hlc, _⟩ := loadAll_char files st hload
  obtain ⟨c0, cs, hs, hcols, hhead, _, hht⟩ := print_html_inv st t hr
  have hN : files.length = cs.length + 1 := by
    rw [← hlc, hcols]
    simp
  rw [hht]
  simp only [List.length_cons]
  rw [headerDeltaCells_length st cs 1 hs hhead, hN]
  omega

/-- C6 witness: the conclusion of C6_header_count at the three-file
example input with identical event sets: 6 header cells. -/
theorem C6_witness : exTable.header.length = 1 + 1 + 2 * (exFiles.length - 1) :=
  C6_header_count exFiles exState exTable (by with_unfolding_all decide)
    (by with_unfolding_all decide) (by with_unfolding_all decide)

/-- C7: invoked with fewer than 2 argv entries, the script prints a usage
message whose first line contains the program name, exits with status 1,
and touches no file: the result is the same for every modelled
filesystem, as the right-hand side mentions none. -/
theorem C7_usage (argv : List String)
    (fsys : String → Option (List String)) (h : argv.length < 2) :
    run argv fsys = RunResult.usage [usageLine1 (argv.headD ""), usageLine2] ∧
    exitCodeOf (run argv fsys) = 1 ∧
    usageLine1 (argv.headD "") =
      "Usage:  " ++ argv.headD "" ++
        "  <name> <filename> [<name> <filename>...]" := by
  have hrun : run argv fsys =
      RunResult.usage [usageLine1 (argv.headD ""), usageLine2] := by
    unfold run
    rw [if_pos h]
  exact ⟨hrun, by rw [hrun]; rfl, rfl⟩

/-- C7 witness: the conclusion of C7_usage for argv = [prog] on an
empty filesystem. -/
theorem C7_witness :
    run ["prog"] emptyFsys = RunResult.usage [usageLine1 "prog", usageLine2] ∧
    exitCodeOf (run ["prog"] emptyFsys) = 1 ∧
    usageLine1 "prog" =
      "Usage:  " ++ "prog" ++ "  <name> <filename> [<name> <filename>...]" :=
  C7_usage ["prog"] emptyFsys (by decide)

/-- C8: loading a file that does not define the reserved key __NAME__
(including a file with no data lines at all) fails with a KeyError: on
the filename subscript when the file produced no entries, or on the
__NAME__ subscript otherwise. The hypothesis that the filename has no
`eventdata` entry yet says the path has not already been loaded. -/
theorem C8_missing_name (st : LoadState) (fn : String) (lines : List String)
    (hnew : dlookup st.eventdata fn = none)
    (hnoname : "__NAME__" ∉ fileEventNames lines) :
    read_filename st fn lines = .error (Err.keyError fn) ∨
    read_filename st fn lines = .error (Err.keyError "__NAME__") := by
  have hk : ∀ m, dlookup st.eventdata fn = some m →
      dlookup m "__NAME__" = none := by
    intro m hm
    rw [hnew] at hm
    cases hm
  have hkey := foldl_processLine_hasKey_none fn lines "__NAME__" st hk hnoname
  unfold read_filename
  simp only []
  cases hdl : dlookup (lines.foldl (processLine fn) st).eventdata fn with
  | none => left; rfl
  | some m =>
      right
      simp only [hkey m hdl]

/-- C8 witness: the conclusion of C8_missing_name for a fresh load of a
one-line file defining only the event ev. -/
theorem C8_witness :
    read_filename initState "f" ["ev 5"] = .error (Err.keyError "f") ∨
    read_filename initState "f" ["ev 5"] = .error (Err.keyError "__NAME__") :=
  C8_missing_name initState "f" ["ev 5"] (by decide)
    (by with_unfolding_all decide)

/-- C9: the reserved keys __NAME__ and __PATCH__ never appear as rendered
rows: the rendered row labels are exactly the sorted event universe with
those two keys filtered out, and every other universe entry appears as
often as it is in the universe. -/
theorem C9_reserved_rows (st : LoadState) (t : Table)
    (h : print_html st = .ok t) :
    t.rows.map BodyRow.event =
      (sortNames st.eventnames).filter (fun e => !isReservedName e) ∧
    ∀ e, (t.rows.map BodyRow.event).count e =
      if isReservedName e then 0 else st.eventnames.count e := by
  obtain ⟨c0, cs, hs, _, _, hrows, _⟩ := print_html_inv st t h
  have hmap := renderRows_map_event st _ _ hrows
  refine ⟨hmap, fun e => ?_⟩
  rw [hmap]
  by_cases hres : isReservedName e
  · rw [if_pos hres]
    rw [List.count_eq_zero]
    intro hc
    have := List.of_mem_filter hc
    simp [hres] at this
  · rw [if_neg hres]
    rw [List.count_filter (by simp [hres])]
    exact (sortNames_perm st.eventnames).count_eq e

/-- C9 witness: the conclusion of C9_reserved_rows at the loaded example
input, with the count equation instantiated at the reserved key
__NAME__, which labels no row despite being in the universe. -/
theorem C9_witness :
    exTable.rows.map BodyRow.event =
      (sortNames exState.eventnames).filter (fun e => !isReservedName e) ∧
    (exTable.rows.map BodyRow.event).count "__NAME__" =
      if isReservedName "__NAME__" then 0
      else exState.eventnames.count "__NAME__" := by
  obtain ⟨a, b⟩ := C9_reserved_rows exState exTable (by with_unfolding_all decide)
  exact ⟨a, b "__NAME__"⟩

/-- C10: per-column event data is keyed by file path: after a successful
load the column list equals the input paths in order (duplicates kept),
`eventdata` has at most one entry per path, and any two columns i and j
naming the same path show identical cells in every rendered row. -/
theorem C10_shared_column_data (files : List (String × List String))
    (st : LoadState) (t : Table) (hload : loadAll files = .ok st)
    (hr : print_html st = .ok t) (i j : Nat) (f : String)
    (hi : 1 ≤ i) (hj : 1 ≤ j)
    (hif : st.loaded_filenames[i]? = some f)
    (hjf : st.loaded_filenames[j]? = some f) :
    st.loaded_filenames = files.map Prod.fst ∧
    (st.eventdata.map Prod.fst).Nodup ∧
    ∀ row ∈ t.rows, row.deltas[i - 1]? = row.deltas[j - 1]? := by
  obtain ⟨inv, hlf, _, _⟩ := loadAll_char files st hload
  refine ⟨hlf, inv.nodupKeys, fun row hrow => ?_⟩
  obtain ⟨c0, cs, hs, _, _, hrows, _⟩ := print_html_inv st t hr
  obtain ⟨e, _, hrr⟩ := (renderRows_inv st _ _ hrows).1 row hrow
  obtain ⟨f0, fs, m0, s0, hlf0, _, _, _, hds, _⟩ := renderRow_inv st e row hrr
  have hifs : fs[i - 1]? = some f := by
    obtain ⟨k, rfl⟩ : ∃ k, i = k + 1 := ⟨i - 1, by omega⟩
    rw [hlf0] at hif
    simpa using hif
  have hjfs : fs[j - 1]? = some f := by
    obtain ⟨k, rfl⟩ : ∃ k, j = k + 1 := ⟨j - 1, by omega⟩
    rw [hlf0] at hjf
    simpa using hjf
  obtain ⟨g1, _, _⟩ := rowDeltas_inv st row.originVal e fs row.deltas hds
  obtain ⟨d, hdk, hdeq⟩ := g1 (i - 1) f hifs
  obtain ⟨dd, hdk2, hdeq2⟩ := g1 (j - 1) f hjfs
  rw [hdk, hdk2]
  rw [hdeq] at hdeq2
  injection hdeq2 with hh
  rw [hh]

/-- C10 witness: the conclusion of C10_shared_column_data at the input
whose second and third arguments are the same path v1, instantiated at
the single rendered row: both columns carry identical cells. -/
theorem C10_witness :
    dupState.loaded_filenames = dupFiles.map Prod.fst ∧
    (dupState.eventdata.map Prod.fst).Nodup ∧
    dupRowAlpha.deltas[1 - 1]? = dupRowAlpha.deltas[2 - 1]? := by
  obtain ⟨a, b, c⟩ := C10_shared_column_data dupFiles dupState dupTable
    (by with_unfolding_all decide) (by with_unfolding_all decide)
    1 2 "v1" (by decide) (by decide)
    (by with_unfolding_all decide) (by with_unfolding_all decide)
  exact ⟨a, b, c dupRowAlpha (by with_unfolding_all decide)⟩
